import Mathlib

/-!
Verification of the Octo code-generation engine of `octofont3`
(`src/octofont3/textfont_to_octo.py`), against its natural-language
specification.

The Python module is shallowly embedded below.  Stateful code
(`OctoStream`, a text-output helper with an indent level and a FIFO byte
queue) becomes explicit state passing over the record `OctoState`; the
fallible operations (the `indent_level` property setter raises
`ValueError` on a negative level, and a missing glyph aborts generation)
return `Except`.  All machine integers in the source are Python
arbitrary-precision ints, so they are modelled as `Nat`/`Int` directly.
-/

namespace Octofont

/-- `padded_hex` (textfont_to_octo.py line 15): format a value as a
`0x`-prefixed lowercase hexadecimal literal zero-padded to
`num_digits` digits (`f"0x{hex(value)[2:].zfill(num_digits)}"`). -/
def zfill (numDigits : Nat) (s : String) : String :=
  String.mk (List.replicate (numDigits - s.length) '0') ++ s

def padded_hex (value : Nat) (num_digits : Nat := 2) : String :=
  "0x" ++ zfill num_digits (String.mk (Nat.toDigits 16 value))

/-- State of an `OctoStream` (textfont_to_octo.py lines 19-29) plus the
text sink it wraps: `output` records, in order, every string written to
the underlying stream (`OutputHelper.write`). -/
structure OctoState where
  indentLevel : Nat
  indentChars : String
  byteQueue : List Nat
  output : List String
  deriving Repr, DecidableEq

/-- A fresh `OctoStream(stream)` with the default `indent_chars="  "`. -/
def octoInit : OctoState :=
  { indentLevel := 0, indentChars := "  ", byteQueue := [], output := [] }

/-- `OutputHelper.write`: append one string to the sink. -/
def write (s : OctoState) (str : String) : OctoState :=
  { s with output := s.output ++ [str] }

/-- `self._indent_chars * self._indent_level` (line 47), the string
returned by `OctoStream.get_indent_prefix` when, as at every call site,
it is invoked with the current indent level. -/
def indentPrefixFor (chars : String) : Nat → String
  | 0 => ""
  | n + 1 => chars ++ indentPrefixFor chars n

def indentPrefixOf (s : OctoState) : String :=
  indentPrefixFor s.indentChars s.indentLevel

/-- `OctoStream.print` (lines 31-33): write the indent prefix, then the
text followed by `end` (default newline).  The underlying
`OutputHelper.print` is not under `src/`; it is modelled from the spec
(section 6: one statement per line, newline-terminated) as writing the
joined objects followed by `end`. -/
def opPrint (s : OctoState) (text : String := "") (endStr : String := "\n") :
    OctoState :=
  write (write s (indentPrefixOf s)) (text ++ endStr)

/-- Modelled from the spec: `OutputHelper.comment` (iohelpers.py, not
under `src/`) emits one comment line; spec section 6 fixes the format:
comment lines begin with `#`. -/
def comment (s : OctoState) (text : String) : OctoState :=
  opPrint s ("# " ++ text)

/-- `OctoStream.label` (lines 49-50): `self.print(f": {label_name}", end=end)`. -/
def label (s : OctoState) (labelName : String) (endStr : String := "\n") :
    OctoState :=
  opPrint s (": " ++ labelName) endStr

/-- `OctoStream.multi_statement_line` (lines 52-63): join the statements
with `sep or self._indent_chars` (Python truthiness: `None` and the
empty string both fall back to the indent unit) onto one printed line. -/
def multi_statement_line (s : OctoState) (statements : List String)
    (sep : Option String := none) : OctoState :=
  let sepStr := match sep with
    | none => s.indentChars
    | some str => if str = "" then s.indentChars else str
  opPrint s (String.intercalate sepStr statements)

/-- `OctoStream.begin_indented_func` (lines 65-67). -/
def begin_indented_func (s : OctoState) (labelName : String) : OctoState :=
  let s := label s labelName
  { s with indentLevel := s.indentLevel + 1 }

/-- Errors surfaced by generation.  `valueError` models the Python
`ValueError` raised by the `indent_level` setter (lines 39-43);
`dimension` models the fatal dimension exits (lines 107-115);
`missingGlyphs` models `MissingGlyphError` (custom_types.py lines
344-359). -/
inductive EmitError where
  | dimension : String → EmitError
  | missingGlyphs : List Nat → EmitError
  | valueError : String → EmitError
  deriving Repr, DecidableEq

/-- `octo.indent_level -= 1` through the property setter (lines 39-43):
raises `ValueError` when the new level would be negative.  The error
carries the stream state at the moment of the raise (the sink keeps
every byte already written). -/
def indent_dec (s : OctoState) : Except (OctoState × EmitError) OctoState :=
  if s.indentLevel = 0 then
    .error (s, .valueError "indent_level must be 0 or greater")
  else
    .ok { s with indentLevel := s.indentLevel - 1 }

/-- `OctoStream.end_indented_func` (lines 69-71): prints `return` first,
then decrements the indent level through the checked setter. -/
def end_indented_func (s : OctoState) : Except (OctoState × EmitError) OctoState :=
  indent_dec (opPrint s "return")

/-- `OctoStream.pad_for_label_name` (lines 73-75):
`' ' * (len(label_name) + 3)`. -/
def pad_for_label_name (labelName : String) : String :=
  String.mk (List.replicate (labelName.length + 3) ' ')

/-- One data line of a table flush: the byte chunk formatted as
space-separated zero-padded hexadecimal literals (line 89). -/
def hexLine (chunk : List Nat) : String :=
  String.intercalate " " (chunk.map (fun b => padded_hex b 2))

/-- The `while byte_queue:` loop of
`OctoStream.write_queued_data_with_label` (lines 87-92).  Each pass pops
`min(max_bytes_per_line, len(byte_queue))` bytes, prints them as one hex
data line, prints an empty line, and, when bytes remain, prints the
label-width padding without a newline.  With `max_bytes_per_line = 0`
the Python loop would not terminate; the model returns the state
unchanged in that never-exercised case (both call sites use the
default 16). -/
def write_queued_data_loop (maxPerLine : Nat) (labelPad : String)
    (s : OctoState) : OctoState :=
  match hq : s.byteQueue with
  | [] => s
  | _ :: _ =>
    if hm : maxPerLine = 0 then s
    else
      let numToPop := min maxPerLine s.byteQueue.length
      let rest := s.byteQueue.drop numToPop
      let s1 := opPrint { s with byteQueue := rest }
        (hexLine (s.byteQueue.take numToPop))
      let s2 := opPrint s1
      let s3 := if rest = [] then s2 else opPrint s2 labelPad ""
      write_queued_data_loop maxPerLine labelPad s3
termination_by s.byteQueue.length
decreasing_by
  all_goals
    simp only [s3, s2, s1, opPrint, write]
    split <;>
      simp_all [List.length_drop, hq] <;>
      omega

/-- `OctoStream.write_queued_data_with_label` (lines 80-92): emit the
label followed by a single space, then drain the byte queue. -/
def write_queued_data_with_label (s : OctoState) (labelName : String)
    (maxBytesPerLine : Nat := 16) : OctoState :=
  let s1 := label s labelName " "
  write_queued_data_loop maxBytesPerLine (pad_for_label_name labelName) s1

/-! ## Font data model (spec section 3, `TextFontFile` consumed read-only) -/

/-- One glyph bitmap as `emit_octo` consumes it: `bytes(glyph)` is the
raw byte-ordered pixel-intensity sequence (`pixels`), `glyph.size` is
`(width, height)`, and `len(glyphs[i])` is `pixels.length`. -/
structure Glyph where
  pixels : List Nat
  width : Nat
  height : Nat
  deriving Repr, DecidableEq

/-- The font table fields `emit_octo` reads (lines 99-104): dimensions,
inclusive code range, and the glyph mapping (`none` = code absent). -/
structure FontData where
  max_width : Nat
  max_height : Nat
  first_glyph : Nat
  last_glyph : Nat
  glyph : Nat → Option Glyph

/-- `range(first_glyph, last_glyph + 1)`. -/
def glyphCodes (font : FontData) : List Nat :=
  List.range' font.first_glyph (font.last_glyph + 1 - font.first_glyph)

/-- Glyph lookup for codes already validated as present; the default is
never read on the paths where this is used. -/
def glyphAt (font : FontData) (code : Nat) : Glyph :=
  (font.glyph code).getD ⟨[], 0, 0⟩

/-- Modelled from the spec: the glyph-source mapping
(`TextFontFile.glyph`, octofont3/textfont/parser.py, not under `src/`)
raises the missing-glyph condition "carrying the list of missing codes"
(spec sections 6 and 7) when requested codes are absent.  This computes
that list, ascending. -/
def missingGlyphs (font : FontData) : List Nat :=
  (glyphCodes font).filter (fun c => font.glyph c = none)

/-! ## BitPacker (lines 239-250) -/

/-- `1 if pixel else 0`. -/
def packBit (p : Nat) : Nat := if p ≠ 0 then 1 else 0

/-- The packing fold of lines 241-245:
`packed_row_data = (packed_row_data << 1) | (1 if pixel else 0)`. -/
def packFold (pixels : List Nat) : Nat :=
  pixels.foldl (fun acc p => (acc <<< 1) ||| packBit p) 0

/-- `pack_row`: the fold followed by the left-alignment shift of line
248, `packed_row_data <<= char_size - glyph_width` with `char_size = 8`. -/
def pack_row (pixels : List Nat) (width : Nat) : Nat :=
  packFold pixels <<< (8 - width)

/-- The row slices of lines 239-240:
`pixels[row_start:row_start+glyph_width]` for
`row_start in range(0, len(pixels), glyph_width)`.  A zero width would
raise `ValueError` in Python (`range` step 0); the model returns `[]`
in that never-exercised case. -/
def chunkRows (pixels : List Nat) (w : Nat) : List (List Nat) :=
  match pixels with
  | [] => []
  | p :: rest =>
    if hw : w = 0 then []
    else (p :: rest).take w :: chunkRows ((p :: rest).drop w) w
termination_by pixels.length
decreasing_by simp_all [List.length_drop]; omega

/-- All packed row bytes of one glyph, queued by the loop of lines
239-250. -/
def glyphRowBytes (g : Glyph) : List Nat :=
  (chunkRows g.pixels g.width).map (fun row => pack_row row g.width)

/-- The width-table bytes (lines 221-223): one per code, ascending,
`len(glyphs[i]) // font_height`. -/
def widthTableBytes (font : FontData) : List Nat :=
  (glyphCodes font).map
    (fun c => (glyphAt font c).pixels.length / font.max_height)

/-- The glyph-table bytes: every glyph's packed rows, glyph-major then
row-major, ascending code order (lines 227-250). -/
def glyphTableBytes (font : FontData) : List Nat :=
  ((glyphCodes font).map (fun c => glyphRowBytes (glyphAt font c))).flatten

/-! ## ShiftPlanner (lines 169-184) -/

/-- The shift/add plan of lines 169-174.  `int(log(font_height, 2))` is
CPython float arithmetic; on the domain 1..8 admitted by the dimension
checks it evaluates to 0,1,1,2,2,2,2,3, which is exactly `Nat.log2`.
`int(pow(n_shift, 2))` is `n_shift ** 2` (exact for these magnitudes).
The remainder can be negative (height 8 gives `8 - 3**2 = -1`), so it
is an `Int`. -/
def shiftPlan (height : Nat) : Nat × Int :=
  let n : Nat := Nat.log2 height
  let remainder : Int := (height : Int) - (n : Int) ^ 2
  if (n : Int) * 2 + remainder + 1 ≥ (height : Int) then (0, (height : Int))
  else (n, remainder)

/-- The micro-ops the draw-glyph generator can emit against the
character register `v0` and the index register `i`:
`i += v0`, `v0 <<= v0` (Octo: double), `v0 >>= v0` (Octo: halve). -/
inductive OctoOp where
  | addChar
  | dblChar
  | halveChar
  deriving Repr, DecidableEq

/-- The exact statement text lines 177-183 emit for each micro-op. -/
def draw_char_reg : String := "v0"
def draw_x_reg : String := "v1"
def draw_y_reg : String := "v2"
def width_char_reg : String := "v0"

def opStmt : OctoOp → String
  | .addChar => "i += " ++ draw_char_reg
  | .dblChar => draw_char_reg ++ " <<= " ++ draw_char_reg
  | .halveChar => draw_char_reg ++ " >>= " ++ draw_char_reg

/-- The op sequence of lines 176-183: `remainder` adds, `n_shift`
doublings, one more add, `n_shift` halvings — or the plain-add fallback.
Python's `[stmt] * remainder` with a negative remainder is the empty
list, hence `Int.toNat`. -/
def drawOps (height : Nat) : List OctoOp :=
  let p := shiftPlan height
  if p.1 > 0 then
    List.replicate p.2.toNat .addChar ++ List.replicate p.1 .dblChar
      ++ [.addChar] ++ List.replicate p.1 .halveChar
  else
    List.replicate p.2.toNat .addChar

/-- The statement groups actually passed to `multi_statement_line` /
`print` by lines 176-183, in order. -/
def shiftStmtLists (height : Nat) : List (List String) :=
  let p := shiftPlan height
  if p.1 > 0 then
    [List.replicate p.2.toNat (opStmt .addChar),
     List.replicate p.1 (opStmt .dblChar),
     [opStmt .addChar],
     List.replicate p.1 (opStmt .halveChar)]
  else
    [List.replicate p.2.toNat (opStmt .addChar)]

/-- Arithmetic execution of the micro-ops against a simulated
`(character, index)` register pair, as the spec's ShiftPlanner contract
prescribes ("when executed arithmetically"). -/
def execOps : List OctoOp → Nat × Nat → Nat × Nat
  | [], st => st
  | .addChar :: ops, (c, i) => execOps ops (c, i + c)
  | .dblChar :: ops, (c, i) => execOps ops (2 * c, i)
  | .halveChar :: ops, (c, i) => execOps ops (c / 2, i)

/-! ## CodeGenerationDriver: `emit_octo` (lines 95-252) -/

def kern_px : Nat := 1
def compact_glyphtable : Bool := true

/-- The `prefix` local of line 141. -/
def labelStem : String := "smallfont"
def draw_func_name : String := labelStem ++ "_draw_glyph"
def width_func_name : String := labelStem ++ "_glyph_width"
def widthtable_name : String := labelStem ++ "_width_table"
def glyphtable_name : String := labelStem ++ "_glyph_table"

/-- Line 153: `''.join(chr(i) if i in glyphs else '' for i in range(255))`. -/
def availableChars (font : FontData) : String :=
  String.mk ((List.range 255).filterMap
    (fun i => if (font.glyph i).isSome then some (Char.ofNat i) else none))

/-- Header (lines 151-154). -/
def emitHeader (font : FontData) (s : OctoState) : OctoState :=
  let s := opPrint s
  opPrint s ("# Font: " ++ labelStem ++ "  Available characters: "
    ++ availableChars font)

/-- The shift/add section of the draw routine (lines 176-183). -/
def emitShift (height : Nat) (s : OctoState) : OctoState :=
  let p := shiftPlan height
  if p.1 > 0 then
    let s := multi_statement_line s (List.replicate p.2.toNat (opStmt .addChar))
    let s := multi_statement_line s (List.replicate p.1 (opStmt .dblChar))
    let s := opPrint s (opStmt .addChar)
    multi_statement_line s (List.replicate p.1 (opStmt .halveChar))
  else
    multi_statement_line s (List.replicate p.2.toNat (opStmt .addChar))

/-- Draw-glyph routine (lines 156-194).  `256 - offset` is Python int
arithmetic, hence computed in `Int`. -/
def emitDrawRoutine (font : FontData) (s : OctoState) :
    Except (OctoState × EmitError) OctoState :=
  let s := opPrint s
  let s := comment s ("Call with " ++ draw_char_reg ++ " = ASCII character, "
    ++ draw_x_reg ++ " = x, " ++ draw_y_reg ++ " = y")
  let s := comment s ("Returns with " ++ draw_x_reg
    ++ " incremented by the width of the glyph plus " ++ toString kern_px)
  let s := comment s ("Clobbers vF, I"
    ++ (if draw_char_reg = width_char_reg then "" else ", " ++ width_char_reg))
  let s := comment s ("Must not be called with " ++ draw_char_reg ++ " < "
    ++ toString font.first_glyph ++ " or " ++ draw_char_reg ++ " > "
    ++ toString font.last_glyph ++ "!")
  let s := begin_indented_func s draw_func_name
  let s := opPrint s (draw_char_reg ++ " += "
    ++ toString (256 - (font.first_glyph : Int)))
  let s := opPrint s ("i := " ++ glyphtable_name)
  let s := emitShift font.max_height s
  let s := opPrint s ("sprite " ++ draw_x_reg ++ " " ++ draw_y_reg ++ " "
    ++ toString font.max_height)
  let s := if draw_char_reg = width_char_reg then s
    else opPrint s (width_char_reg ++ " := " ++ draw_char_reg)
  let s := opPrint s (width_func_name ++ "_no_offset")
  let s := opPrint s (draw_x_reg ++ " += " ++ width_char_reg)
  let s := opPrint s (draw_x_reg ++ " += 1")
  end_indented_func s

/-- Width routines (lines 196-215): the offsetting entry point (label,
manual indent, no `return` — the source notes this as a possible bug)
and the `_no_offset` routine. -/
def emitWidthRoutine (font : FontData) (s : OctoState) :
    Except (OctoState × EmitError) OctoState := do
  let s := opPrint s
  let s := comment s ("Call with " ++ width_char_reg ++ " = ASCII character")
  let s := comment s ("Returns " ++ width_char_reg
    ++ " = width of glyph in pixels")
  let s := comment s "Clobbers vF, I"
  let s := comment s ("Must not be called with " ++ width_char_reg ++ " < "
    ++ toString font.first_glyph ++ " or " ++ width_char_reg ++ " > "
    ++ toString font.last_glyph ++ "!")
  let s := label s width_func_name
  let s := { s with indentLevel := s.indentLevel + 1 }
  let s := opPrint s (width_char_reg ++ " += "
    ++ toString (256 - (font.first_glyph : Int)))
  let s ← indent_dec s
  let s := begin_indented_func s (width_func_name ++ "_no_offset")
  let s := opPrint s ("i := " ++ widthtable_name)
  let s := opPrint s ("i += " ++ width_char_reg)
  let s := opPrint s ("load " ++ width_char_reg)
  end_indented_func s

/-- Width-table section (lines 221-224).  The loop indexes `glyphs[i]`
for every requested code; the mapping is the glyph-source collaborator
(`TextFontFile`, not under `src/`).  Modelled from the spec: absence of
requested codes raises the missing-glyph condition carrying the
ascending list of all absent codes (spec sections 6 and 7), surfaced at
this first indexing point; the sink keeps everything already emitted. -/
def emitWidthTable (font : FontData) (s : OctoState) :
    Except (OctoState × EmitError) OctoState :=
  if missingGlyphs font ≠ [] then
    .error (s, .missingGlyphs (missingGlyphs font))
  else
    let s := { s with byteQueue := s.byteQueue ++ widthTableBytes font }
    .ok (write_queued_data_with_label s widthtable_name)

/-- The dead non-compact branch of lines 232-235 (`compact_glyphtable`
is the constant `True`). -/
def emitGlyphNonCompact (code : Nat) (s : OctoState) : OctoState :=
  let s := opPrint s
  let pad := pad_for_label_name widthtable_name
  opPrint s (" " ++ pad ++ "# " ++ toString code ++ " '"
    ++ String.mk [Char.ofNat code] ++ "': gl" ++ toString code ++ "  " ++ pad) ""

/-- Glyph-table section (lines 226-252): queue every glyph's packed
rows, then flush under the glyph-table label. -/
def emitGlyphTable (font : FontData) (s : OctoState) : OctoState :=
  let s := (glyphCodes font).foldl
    (fun s code =>
      let s := if compact_glyphtable then s else emitGlyphNonCompact code s
      { s with byteQueue := s.byteQueue ++ glyphRowBytes (glyphAt font code) })
    s
  write_queued_data_with_label s glyphtable_name

/-- The emission pipeline after the dimension checks, in the fixed
source order: header, draw routine, width routines, string-draw label
(line 218: `prefix + "draw_str"`, i.e. `smallfontdraw_str`), width
table, glyph table. -/
def emitOctoCore (font : FontData) : Except (OctoState × EmitError) OctoState := do
  let s := emitHeader font octoInit
  let s ← emitDrawRoutine font s
  let s ← emitWidthRoutine font s
  let s := label s (labelStem ++ "draw_str")
  let s ← emitWidthTable font s
  pure (emitGlyphTable font s)

/-- The observable result of one `emit_octo(stream, font_data)` call:
everything written to the sink, and the fatal condition if one arose.
The dimension failures (lines 107-115) print their diagnostic to
process stdout and `sys.exit(2)` before the `OctoStream` wrapping the
sink is even created, so the sink receives nothing. -/
structure EmitResult where
  output : List String
  err : Option EmitError
  deriving Repr, DecidableEq

def emitOcto (font : FontData) : EmitResult :=
  if font.max_width = 0 ∨ font.max_height = 0 then
    { output := [], err := some (.dimension "Did not find font dimensions") }
  else if font.max_width > 8 then
    { output := [],
      err := some (.dimension "Font width larger than 8 pixels, not yet supported") }
  else if font.max_height > 8 then
    { output := [],
      err := some (.dimension "Font height larger than 8 pixels, not yet supported") }
  else
    match emitOctoCore font with
    | .ok s => { output := s.output, err := none }
    | .error (s, e) => { output := s.output, err := some e }

end Octofont


namespace Octofont

/-! ## Output characterization

`drainOutput` describes, purely functionally, the strings the drain loop
of `write_queued_data_with_label` appends; the `...Chunks` definitions
below describe each emission stage's appended strings.  The lemmas prove
the imperative model produces exactly these. -/

def drainOutput (m : Nat) (pad pfx : String) (q : List Nat) : List String :=
  match q with
  | [] => []
  | b :: t =>
    if m = 0 then []
    else
      let n := min m (b :: t).length
      [pfx, hexLine ((b :: t).take n) ++ "\n", pfx, "\n"]
        ++ (if (b :: t).drop n = [] then [] else [pfx, pad])
        ++ drainOutput m pad pfx ((b :: t).drop n)
termination_by q.length
decreasing_by simp_all [List.length_drop]; omega

theorem write_queued_data_loop_eq (m : Nat) (hm : m ≠ 0) (pad : String) :
    ∀ s : OctoState, write_queued_data_loop m pad s =
      { s with byteQueue := [],
               output := s.output ++ drainOutput m pad (indentPrefixOf s) s.byteQueue } := by
  have main : ∀ n (s : OctoState), s.byteQueue.length ≤ n →
      write_queued_data_loop m pad s =
      { s with byteQueue := [],
               output := s.output ++ drainOutput m pad (indentPrefixOf s) s.byteQueue } := by
    intro n
    induction n with
    | zero =>
      intro s h
      obtain ⟨il, ic, q, out⟩ := s
      simp only [OctoState.byteQueue] at h
      have hq : q = [] := by
        cases q with
        | nil => rfl
        | cons a t => simp at h
      subst hq
      rw [write_queued_data_loop]
      simp [drainOutput]
    | succ n ih =>
      intro s h
      obtain ⟨il, ic, q, out⟩ := s
      cases q with
      | nil =>
        rw [write_queued_data_loop]
        simp [drainOutput]
      | cons b t =>
        rw [write_queued_data_loop]
        rw [dif_neg hm]
        have hlen : (List.drop (min m (b :: t).length) (b :: t)).length ≤ n := by
          simp only [List.length_drop, List.length_cons]
          simp only [OctoState.byteQueue, List.length_cons] at h
          have : 1 ≤ min m (t.length + 1) := by
            simp [Nat.le_min]; omega
          omega
        rw [ih _ (by split <;> simpa [opPrint, write] using hlen)]
        simp [opPrint, write, indentPrefixOf, drainOutput, hm,
          List.append_assoc, apply_ite]
        split <;> simp [List.append_assoc]
  intro s
  exact main s.byteQueue.length s le_rfl

def commentChunks (text : String) : List String :=
  ["", ("# " ++ text) ++ "\n"]

def shiftChunks (height : Nat) : List String :=
  if (shiftPlan height).1 > 0 then
    ["  ", String.intercalate "  "
       (List.replicate (shiftPlan height).2.toNat (opStmt .addChar)) ++ "\n",
     "  ", String.intercalate "  "
       (List.replicate (shiftPlan height).1 (opStmt .dblChar)) ++ "\n",
     "  ", opStmt .addChar ++ "\n",
     "  ", String.intercalate "  "
       (List.replicate (shiftPlan height).1 (opStmt .halveChar)) ++ "\n"]
  else
    ["  ", String.intercalate "  "
       (List.replicate (shiftPlan height).2.toNat (opStmt .addChar)) ++ "\n"]

def headerChunks (font : FontData) : List String :=
  ["", "\n",
   "", ("# Font: " ++ labelStem ++ "  Available characters: "
     ++ availableChars font) ++ "\n"]

def drawChunks (font : FontData) : List String :=
  ["", "\n"]
  ++ commentChunks ("Call with " ++ draw_char_reg ++ " = ASCII character, "
    ++ draw_x_reg ++ " = x, " ++ draw_y_reg ++ " = y")
  ++ commentChunks ("Returns with " ++ draw_x_reg
    ++ " incremented by the width of the glyph plus " ++ toString kern_px)
  ++ commentChunks ("Clobbers vF, I"
    ++ (if draw_char_reg = width_char_reg then "" else ", " ++ width_char_reg))
  ++ commentChunks ("Must not be called with " ++ draw_char_reg ++ " < "
    ++ toString font.first_glyph ++ " or " ++ draw_char_reg ++ " > "
    ++ toString font.last_glyph ++ "!")
  ++ ["", (": " ++ draw_func_name) ++ "\n",
      "  ", (draw_char_reg ++ " += "
        ++ toString (256 - (font.first_glyph : Int))) ++ "\n",
      "  ", ("i := " ++ glyphtable_name) ++ "\n"]
  ++ shiftChunks font.max_height
  ++ ["  ", ("sprite " ++ draw_x_reg ++ " " ++ draw_y_reg ++ " "
        ++ toString font.max_height) ++ "\n",
      "  ", (width_func_name ++ "_no_offset") ++ "\n",
      "  ", (draw_x_reg ++ " += " ++ width_char_reg) ++ "\n",
      "  ", (draw_x_reg ++ " += 1") ++ "\n",
      "  ", "return" ++ "\n"]

def widthChunks (font : FontData) : List String :=
  ["", "\n"]
  ++ commentChunks ("Call with " ++ width_char_reg ++ " = ASCII character")
  ++ commentChunks ("Returns " ++ width_char_reg ++ " = width of glyph in pixels")
  ++ commentChunks "Clobbers vF, I"
  ++ commentChunks ("Must not be called with " ++ width_char_reg ++ " < "
    ++ toString font.first_glyph ++ " or " ++ width_char_reg ++ " > "
    ++ toString font.last_glyph ++ "!")
  ++ ["", (": " ++ width_func_name) ++ "\n",
      "  ", (width_char_reg ++ " += "
        ++ toString (256 - (font.first_glyph : Int))) ++ "\n",
      "", (": " ++ (width_func_name ++ "_no_offset")) ++ "\n",
      "  ", ("i := " ++ widthtable_name) ++ "\n",
      "  ", ("i += " ++ width_char_reg) ++ "\n",
      "  ", ("load " ++ width_char_reg) ++ "\n",
      "  ", "return" ++ "\n"]

def strLabelChunks : List String :=
  ["", (": " ++ (labelStem ++ "draw_str")) ++ "\n"]

def widthTableChunks (font : FontData) : List String :=
  ["", (": " ++ widthtable_name) ++ " "]
  ++ drainOutput 16 (pad_for_label_name widthtable_name) "" (widthTableBytes font)

def glyphTableOutChunks (font : FontData) : List String :=
  ["", (": " ++ glyphtable_name) ++ " "]
  ++ drainOutput 16 (pad_for_label_name glyphtable_name) "" (glyphTableBytes font)

/-- Everything `emit_octo` writes to the sink once the dimension checks
pass and every requested glyph is present. -/
def coreOutput (font : FontData) : List String :=
  headerChunks font ++ drawChunks font ++ widthChunks font ++ strLabelChunks
    ++ widthTableChunks font ++ glyphTableOutChunks font

theorem emitHeader_eq (font : FontData) (out : List String) :
    emitHeader font ⟨0, "  ", [], out⟩ = ⟨0, "  ", [], out ++ headerChunks font⟩ := by
  simp [emitHeader, headerChunks, opPrint, write, indentPrefixOf, indentPrefixFor]

theorem emitShift_eq (h : Nat) (q : List Nat) (out : List String) :
    emitShift h ⟨1, "  ", q, out⟩ = ⟨1, "  ", q, out ++ shiftChunks h⟩ := by
  by_cases hp : (shiftPlan h).1 > 0 <;>
    simp [emitShift, shiftChunks, hp, multi_statement_line, opPrint, write,
      indentPrefixOf, indentPrefixFor, List.append_assoc]

theorem emitDrawRoutine_eq (font : FontData) (out : List String) :
    emitDrawRoutine font ⟨0, "  ", [], out⟩ =
      .ok ⟨0, "  ", [], out ++ drawChunks font⟩ := by
  simp [emitDrawRoutine, drawChunks, commentChunks, comment, opPrint, write,
    label, begin_indented_func, end_indented_func, indent_dec,
    draw_char_reg, draw_x_reg, draw_y_reg, width_char_reg, kern_px,
    draw_func_name, width_func_name, widthtable_name, glyphtable_name, labelStem,
    indentPrefixOf, indentPrefixFor, emitShift_eq, List.append_assoc]

theorem emitWidthRoutine_eq (font : FontData) (out : List String) :
    emitWidthRoutine font ⟨0, "  ", [], out⟩ =
      .ok ⟨0, "  ", [], out ++ widthChunks font⟩ := by
  simp [emitWidthRoutine, widthChunks, commentChunks, comment, opPrint, write,
    label, begin_indented_func, end_indented_func, indent_dec,
    draw_char_reg, draw_x_reg, draw_y_reg, width_char_reg, kern_px,
    draw_func_name, width_func_name, widthtable_name, glyphtable_name, labelStem,
    Except.instMonad, Except.bind, Functor.map, Except.map,
    indentPrefixOf, indentPrefixFor, List.append_assoc]

theorem emitWidthTable_eq (font : FontData) (hpres : missingGlyphs font = [])
    (out : List String) :
    emitWidthTable font ⟨0, "  ", [], out⟩ =
      .ok ⟨0, "  ", [], out ++ widthTableChunks font⟩ := by
  simp [emitWidthTable, hpres, widthTableChunks, write_queued_data_with_label,
    write_queued_data_loop_eq 16 (by decide), label, opPrint, write,
    indentPrefixOf, indentPrefixFor, List.append_assoc]

theorem foldQueue (f : Nat → List Nat) :
    ∀ (l : List Nat) (s : OctoState),
      l.foldl (fun s c => { s with byteQueue := s.byteQueue ++ f c }) s
        = { s with byteQueue := s.byteQueue ++ (l.map f).flatten } := by
  intro l
  induction l with
  | nil => intro s; simp
  | cons c t ih =>
    intro s
    simp [ih, List.append_assoc]

theorem emitGlyphTable_eq (font : FontData) (out : List String) :
    emitGlyphTable font ⟨0, "  ", [], out⟩ =
      ⟨0, "  ", [], out ++ glyphTableOutChunks font⟩ := by
  simp only [emitGlyphTable, compact_glyphtable, if_true]
  rw [foldQueue]
  simp [glyphTableOutChunks, glyphTableBytes, write_queued_data_with_label,
    write_queued_data_loop_eq 16 (by decide), label, opPrint, write,
    indentPrefixOf, indentPrefixFor, List.append_assoc]

theorem emitOctoCore_eq (font : FontData) (hpres : missingGlyphs font = []) :
    emitOctoCore font = .ok ⟨0, "  ", [], coreOutput font⟩ := by
  simp [emitOctoCore, octoInit, emitHeader_eq, emitDrawRoutine_eq,
    emitWidthRoutine_eq, emitWidthTable_eq font hpres, emitGlyphTable_eq,
    Except.instMonad, Except.bind, Functor.map, Except.map, Except.pure, Pure.pure, labelStem,
    label, opPrint, write, indentPrefixOf, indentPrefixFor, strLabelChunks,
    coreOutput, List.append_assoc]

end Octofont


namespace Octofont

/-! ## End-to-end characterizations of `emit_octo` -/

/-- With valid dimensions and no missing glyph, the whole run succeeds
and writes exactly `coreOutput`. -/
theorem emitOcto_eq (font : FontData)
    (h1 : font.max_width ≠ 0) (h2 : font.max_height ≠ 0)
    (h3 : ¬ font.max_width > 8) (h4 : ¬ font.max_height > 8)
    (hpres : missingGlyphs font = []) :
    emitOcto font = { output := coreOutput font, err := none } := by
  unfold emitOcto
  rw [if_neg (by tauto), if_neg h3, if_neg h4, emitOctoCore_eq font hpres]

/-- With requested codes absent, the pipeline emits the header, both
routines and the string-draw label, then stops with `MissingGlyphError`
carrying the ascending list of absent codes. -/
theorem emitOctoCore_missing_eq (font : FontData)
    (hmiss : missingGlyphs font ≠ []) :
    emitOctoCore font = .error
      (⟨0, "  ", [], headerChunks font ++ drawChunks font ++ widthChunks font
        ++ strLabelChunks⟩,
       .missingGlyphs (missingGlyphs font)) := by
  simp [emitOctoCore, octoInit, emitHeader_eq, emitDrawRoutine_eq,
    emitWidthRoutine_eq, emitWidthTable, hmiss,
    Except.instMonad, Except.bind, Functor.map, Except.map, Except.pure,
    Pure.pure, labelStem, label, opPrint, write, indentPrefixOf,
    indentPrefixFor, strLabelChunks, List.append_assoc]

theorem emitOcto_missing_eq (font : FontData)
    (h1 : font.max_width ≠ 0) (h2 : font.max_height ≠ 0)
    (h3 : ¬ font.max_width > 8) (h4 : ¬ font.max_height > 8)
    (hmiss : missingGlyphs font ≠ []) :
    emitOcto font =
      { output := headerChunks font ++ drawChunks font ++ widthChunks font
          ++ strLabelChunks,
        err := some (.missingGlyphs (missingGlyphs font)) } := by
  unfold emitOcto
  rw [if_neg (by tauto), if_neg h3, if_neg h4, emitOctoCore_missing_eq font hmiss]

/-! ## The byte chunks of the table data lines -/

/-- The successive byte chunks the drain loop formats as single data
lines: repeatedly take `min maxPerLine (length remaining)` bytes. -/
def tableChunks (m : Nat) (q : List Nat) : List (List Nat) :=
  match q with
  | [] => []
  | b :: t =>
    if m = 0 then []
    else
      (b :: t).take (min m (b :: t).length)
        :: tableChunks m ((b :: t).drop (min m (b :: t).length))
termination_by q.length
decreasing_by simp_all [List.length_drop]; omega

theorem tableChunks_length_le (m : Nat) :
    ∀ q : List Nat, ∀ c ∈ tableChunks m q, c.length ≤ m := by
  have main : ∀ n (q : List Nat), q.length ≤ n →
      ∀ c ∈ tableChunks m q, c.length ≤ m := by
    intro n
    induction n with
    | zero =>
      intro q h c hc
      have hq : q = [] := by
        cases q with
        | nil => rfl
        | cons a t => simp at h
      subst hq
      rw [tableChunks] at hc
      simp at hc
    | succ n ih =>
      intro q h c hc
      cases q with
      | nil => rw [tableChunks] at hc; simp at hc
      | cons b t =>
        rw [tableChunks] at hc
        by_cases hm : m = 0
        · simp [hm] at hc
        · rw [if_neg hm] at hc
          rcases List.mem_cons.mp hc with hc | hc
          · subst hc
            simp [List.length_take]
          · exact ih _ (by simp [List.length_drop, List.length_cons] at h ⊢; omega) c hc
  intro q
  exact main q.length q le_rfl

theorem hexLine_mem_drainOutput (m : Nat) (hm : m ≠ 0) (pad pfx : String) :
    ∀ (q : List Nat) (c : List Nat), c ∈ tableChunks m q →
      (hexLine c ++ "\n") ∈ drainOutput m pad pfx q := by
  have main : ∀ n (q : List Nat), q.length ≤ n → ∀ c, c ∈ tableChunks m q →
      (hexLine c ++ "\n") ∈ drainOutput m pad pfx q := by
    intro n
    induction n with
    | zero =>
      intro q h c hc
      have hq : q = [] := by
        cases q with
        | nil => rfl
        | cons a t => simp at h
      subst hq
      rw [tableChunks] at hc
      simp at hc
    | succ n ih =>
      intro q h c hc
      cases q with
      | nil => rw [tableChunks] at hc; simp at hc
      | cons b t =>
        rw [tableChunks] at hc
        rw [if_neg hm] at hc
        rw [drainOutput]
        rw [if_neg hm]
        rcases List.mem_cons.mp hc with hc | hc
        · subst hc
          simp
        · have := ih ((b :: t).drop (min m (b :: t).length))
            (by simp [List.length_drop, List.length_cons] at h ⊢; omega) c hc
          simp only [List.mem_append, List.mem_cons]
          tauto
  intro q
  exact main q.length q le_rfl

/-- Every data line of a nonempty drain ends the section with a blank
newline chunk. -/
theorem drainOutput_getLast (m : Nat) (hm : m ≠ 0) (pad pfx : String) :
    ∀ q : List Nat, q ≠ [] → (drainOutput m pad pfx q).getLast? = some "\n" := by
  have main : ∀ n (q : List Nat), q.length ≤ n → q ≠ [] →
      (drainOutput m pad pfx q).getLast? = some "\n" := by
    intro n
    induction n with
    | zero =>
      intro q h hq
      cases q with
      | nil => exact absurd rfl hq
      | cons a t => simp at h
    | succ n ih =>
      intro q h hq
      cases q with
      | nil => exact absurd rfl hq
      | cons b t =>
        rw [drainOutput, if_neg hm]
        by_cases hrest : (b :: t).drop (min m (b :: t).length) = []
        · simp only [List.length_cons] at hrest
          simp [hrest, drainOutput]
        · have hdrain := ih ((b :: t).drop (min m (b :: t).length))
            (by simp [List.length_drop, List.length_cons] at h ⊢; omega) hrest
          have hne : drainOutput m pad pfx ((b :: t).drop (min m (b :: t).length)) ≠ [] := by
            intro hcon
            rw [hcon] at hdrain
            simp at hdrain
          simp only [List.length_cons] at hrest hdrain hne ⊢
          rw [List.getLast?_append_of_ne_nil _ hne]
          exact hdrain
  intro q
  exact main q.length q le_rfl

end Octofont


namespace Octofont

/-! ## BitPacker round-trip machinery (claim C2) -/

theorem two_mul_lor_one (a : Nat) : 2 * a ||| 1 = 2 * a + 1 := by
  apply Nat.eq_of_testBit_eq
  intro i
  cases i with
  | zero =>
    simp [Nat.testBit_lor, Nat.testBit_zero]
    omega
  | succ j =>
    rw [Nat.testBit_lor]
    have h1 : (2 * a).testBit (j + 1) = a.testBit j := by
      rw [Nat.testBit_succ]
      congr 1
      omega
    have h2 : (2 * a + 1).testBit (j + 1) = a.testBit j := by
      rw [Nat.testBit_succ]
      congr 1
      omega
    have h3 : (1 : Nat).testBit (j + 1) = false := by
      rw [Nat.testBit_succ]
      simp
    rw [h1, h2, h3, Bool.or_false]

/-- The value of an MSB-first boolean row. -/
def bitsToNat (row : List Bool) : Nat :=
  row.foldl (fun acc b => 2 * acc + (if b then 1 else 0)) 0

/-- The top-`w` bits of a value, MSB first. -/
def natToBits : Nat → Nat → List Bool
  | 0, _ => []
  | w + 1, v => natToBits w (v / 2) ++ [decide (v % 2 = 1)]

theorem packFold_general (row : List Bool) : ∀ acc : Nat,
    (row.map (fun b => if b then (1 : Nat) else 0)).foldl
        (fun acc p => (acc <<< 1) ||| packBit p) acc
      = row.foldl (fun acc b => 2 * acc + (if b then 1 else 0)) acc := by
  induction row with
  | nil => intro acc; simp
  | cons b t ih =>
    intro acc
    simp only [List.map_cons, List.foldl_cons, ih]
    congr 1
    have hs : acc <<< 1 = 2 * acc := by
      rw [Nat.shiftLeft_eq]
      ring
    cases b
    · simp [packBit, hs]
    · simp [packBit, hs, two_mul_lor_one]

theorem packFold_eq (row : List Bool) :
    packFold (row.map (fun b => if b then 1 else 0)) = bitsToNat row := by
  unfold packFold bitsToNat
  exact packFold_general row 0

theorem bitsToNat_general_lt (row : List Bool) : ∀ acc : Nat,
    row.foldl (fun acc b => 2 * acc + (if b then 1 else 0)) acc
      < (acc + 1) * 2 ^ row.length := by
  induction row with
  | nil => intro acc; simp
  | cons b t ih =>
    intro acc
    simp only [List.foldl_cons, List.length_cons]
    calc t.foldl (fun acc b => 2 * acc + (if b then 1 else 0))
          (2 * acc + (if b then 1 else 0))
        < (2 * acc + (if b then 1 else 0) + 1) * 2 ^ t.length := ih _
      _ ≤ (acc + 1) * 2 ^ (t.length + 1) := by
          have hb : (if b then (1 : Nat) else 0) ≤ 1 := by cases b <;> simp
          rw [pow_succ]
          nlinarith [Nat.pos_pow_of_pos t.length (show 0 < 2 by norm_num)]

theorem bitsToNat_lt (row : List Bool) : bitsToNat row < 2 ^ row.length := by
  have := bitsToNat_general_lt row 0
  simpa [bitsToNat] using this

theorem bitsToNat_append_singleton (ys : List Bool) (b : Bool) :
    bitsToNat (ys ++ [b]) = 2 * bitsToNat ys + (if b then 1 else 0) := by
  simp [bitsToNat, List.foldl_append]

theorem natToBits_bitsToNat : ∀ row : List Bool,
    natToBits row.length (bitsToNat row) = row := by
  intro row
  induction row using List.reverseRecOn with
  | nil => simp [natToBits, bitsToNat]
  | append_singleton ys b ih =>
    rw [bitsToNat_append_singleton, List.length_append]
    simp only [List.length_cons, List.length_nil, Nat.zero_add]
    rw [natToBits]
    have hdiv : (2 * bitsToNat ys + (if b then 1 else 0)) / 2 = bitsToNat ys := by
      cases b <;> simp <;> omega
    have hmod : decide ((2 * bitsToNat ys + (if b then 1 else 0)) % 2 = 1) = b := by
      cases b <;> simp <;> omega
    rw [hdiv, hmod, ih]

end Octofont


namespace Octofont

/-! ## Concrete fonts used as witnesses and counterexamples -/

/-- Two glyphs `A`, `B`, each a single foreground pixel. -/
def fontSmall : FontData :=
  { max_width := 1, max_height := 1, first_glyph := 65, last_glyph := 66,
    glyph := fun c => if 65 ≤ c ∧ c ≤ 66 then some ⟨[1], 1, 1⟩ else none }

/-- A state with indent level zero. -/
def sampleState : OctoState := ⟨0, "  ", [], ["x"]⟩

/-! ## Claims -/

/-- C1: for every font height 1..8 and every character index, the
shift/add micro-op sequence the draw-glyph generator emits (remainder
adds, `n` doublings, one more add, `n` halvings — or the plain-add
fallback), executed arithmetically against a register holding the
index, advances the glyph-table index register by exactly
`index * height`; and the emitted statement groups render exactly that
op sequence. -/
theorem c1_shift_ops_exact (h : Nat) (hge : 1 ≤ h) (hle : h ≤ 8)
    (idx i0 : Nat) :
    (execOps (drawOps h) (idx, i0)).2 = i0 + idx * h
      ∧ (shiftStmtLists h).flatten = (drawOps h).map opStmt := by
  constructor
  · interval_cases h <;>
      simp [drawOps, shiftPlan, Nat.log2, execOps] <;> omega
  · by_cases hp : (shiftPlan h).1 > 0 <;>
      simp [shiftStmtLists, drawOps, hp, List.map_append, List.map_replicate]

theorem c1_witness :
    (execOps (drawOps 5) (7, 1)).2 = 1 + 7 * 5
      ∧ (shiftStmtLists 5).flatten = (drawOps 5).map opStmt :=
  c1_shift_ops_exact 5 (by norm_num) (by norm_num) 7 1

/-- C2: packing a boolean row of width `w` (fold `(acc << 1) | bit`,
then left shift by `8 - w`) and extracting the top `w` bits of the
resulting byte reproduces the row, the trailing `8 - w` bits are zero,
and the packed value fits in one byte. -/
theorem c2_pack_row_roundtrip (w : Nat) (h1 : 1 ≤ w) (h8 : w ≤ 8)
    (row : List Bool) (hlen : row.length = w) :
    natToBits w (pack_row (row.map (fun b => if b then 1 else 0)) w >>> (8 - w)) = row
      ∧ pack_row (row.map (fun b => if b then 1 else 0)) w % 2 ^ (8 - w) = 0
      ∧ pack_row (row.map (fun b => if b then 1 else 0)) w < 256 := by
  have hfold := packFold_eq row
  have hlt : bitsToNat row < 2 ^ w := by
    have := bitsToNat_lt row
    rwa [hlen] at this
  unfold pack_row
  rw [hfold]
  refine ⟨?_, ?_, ?_⟩
  · rw [Nat.shiftLeft_eq, Nat.shiftRight_eq_div_pow,
      Nat.mul_div_cancel _ (Nat.pos_pow_of_pos _ (by norm_num))]
    rw [← hlen]
    exact natToBits_bitsToNat row
  · rw [Nat.shiftLeft_eq]
    exact Nat.mul_mod_left _ _
  · rw [Nat.shiftLeft_eq]
    calc bitsToNat row * 2 ^ (8 - w)
        < 2 ^ w * 2 ^ (8 - w) := by
          exact (mul_lt_mul_right (by positivity)).mpr hlt
      _ = 2 ^ 8 := by rw [← pow_add]; congr 1; omega
      _ = 256 := by norm_num

theorem c2_witness :
    natToBits 3  (pack_row ([true, false, true].map (fun b => if b then 1 else 0)) 3 >>> (8 - 3)) = [true, false, true]
      ∧ pack_row ([true, false, true].map (fun b => if b then 1 else 0)) 3 % 2 ^ (8 - 3) = 0
      ∧ pack_row ([true, false, true].map (fun b => if b then 1 else 0)) 3 < 256 :=
  c2_pack_row_roundtrip 3 (by norm_num) (by norm_num) [true, false, true] rfl

/-- C8: generation is a deterministic function of the font input; two
runs on equal inputs produce identical output (the model shows each
invocation owns a fresh emitter, queue and indent counter). -/
theorem c8_deterministic (f g : FontData) (h : f = g) :
    emitOcto f = emitOcto g := by
  rw [h]

theorem c8_witness : emitOcto fontSmall = emitOcto fontSmall :=
  c8_deterministic fontSmall fontSmall rfl

/-- C9: calling `end_indented_func` at indent level 0 writes the
`return` line to the sink first and only then raises the negative
indent-level `ValueError`; the sink is not left unchanged, so the
failure is not atomic. -/
theorem c9_end_routine_writes_before_raise (s : OctoState)
    (h : s.indentLevel = 0) :
    end_indented_func s =
      .error ({ s with output := s.output ++ [indentPrefixOf s, "return\n"] },
        .valueError "indent_level must be 0 or greater")
      ∧ s.output ++ [indentPrefixOf s, "return\n"] ≠ s.output := by
  constructor
  · simp [end_indented_func, indent_dec, opPrint, write, h, indentPrefixOf]
  · intro hcon
    have := congrArg List.length hcon
    simp at this

theorem c9_witness :
    end_indented_func sampleState =
      .error ({ sampleState with
          output := sampleState.output ++ [indentPrefixOf sampleState, "return\n"] },
        .valueError "indent_level must be 0 or greater")
      ∧ sampleState.output ++ [indentPrefixOf sampleState, "return\n"]
          ≠ sampleState.output :=
  c9_end_routine_writes_before_raise sampleState rfl

/-- C10: flushing with an empty byte queue emits only the label text
followed by a single space (after the indent prefix, which is empty at
the level-0 call sites), no data lines and no trailing newline, leaving
the queue empty; when the queue is nonempty the emitted section is
newline-terminated. -/
theorem c10_flush_empty_queue (s : OctoState) (name : String)
    (h : s.byteQueue = []) :
    write_queued_data_with_label s name 16 =
      { s with output := s.output ++ [indentPrefixOf s, (": " ++ name) ++ " "] }
      ∧ (write_queued_data_with_label s name 16).byteQueue = s.byteQueue
      ∧ (∀ s2 : OctoState, s2.byteQueue ≠ [] →
          ((write_queued_data_with_label s2 name 16).output).getLast? = some "\n") := by
  have key : write_queued_data_with_label s name 16 =
      { s with output := s.output ++ [indentPrefixOf s, (": " ++ name) ++ " "] } := by
    unfold write_queued_data_with_label
    rw [write_queued_data_loop_eq 16 (by norm_num)]
    simp [label, opPrint, write, h, drainOutput, indentPrefixOf]
  refine ⟨key, ?_, ?_⟩
  · rw [key, h]
  · intro s2 h2
    unfold write_queued_data_with_label
    rw [write_queued_data_loop_eq 16 (by norm_num)]
    have hq2 : (label s2 name " ").byteQueue = s2.byteQueue := by
      simp [label, opPrint, write]
    have hd := drainOutput_getLast 16 (by norm_num)
      (pad_for_label_name name) (indentPrefixOf (label s2 name " "))
      ((label s2 name " ").byteQueue) (by rw [hq2]; exact h2)
    have hne : drainOutput 16 (pad_for_label_name name)
        (indentPrefixOf (label s2 name " ")) ((label s2 name " ").byteQueue) ≠ [] := by
      intro hc
      rw [hc] at hd
      simp at hd
    simp only [OctoState.output]
    rw [List.getLast?_append_of_ne_nil _ hne]
    exact hd

theorem c10_witness :
    write_queued_data_with_label octoInit "table" 16 =
      { octoInit with output := octoInit.output
          ++ [indentPrefixOf octoInit, (": " ++ "table") ++ " "] }
      ∧ (write_queued_data_with_label octoInit "table" 16).byteQueue
          = octoInit.byteQueue
      ∧ (∀ s2 : OctoState, s2.byteQueue ≠ [] →
          ((write_queued_data_with_label s2 "table" 16).output).getLast? = some "\n") :=
  c10_flush_empty_queue octoInit "table" rfl

end Octofont


namespace Octofont

/-! ## Claims about the full pipeline (C3-C7) -/

/-- Nine glyphs, so the width table holds 9 bytes and its single data
line carries 9 hex literals. -/
def fontNine : FontData :=
  { max_width := 1, max_height := 1, first_glyph := 65, last_glyph := 73,
    glyph := fun c => if 65 ≤ c ∧ c ≤ 73 then some ⟨[1], 1, 1⟩ else none }

/-- Code 66 is absent from the mapping. -/
def fontMissing : FontData :=
  { max_width := 1, max_height := 1, first_glyph := 65, last_glyph := 67,
    glyph := fun c => if c = 66 then none
      else if 65 ≤ c ∧ c ≤ 67 then some ⟨[1], 1, 1⟩ else none }

/-- Width 9 exceeds the 8-pixel limit. -/
def fontBadDims : FontData :=
  { max_width := 9, max_height := 1, first_glyph := 65, last_glyph := 65,
    glyph := fun _ => none }

/-- `first_glyph = 0`: the draw routine emits the literal 256. -/
def fontZero : FontData :=
  { max_width := 1, max_height := 1, first_glyph := 0, last_glyph := 0,
    glyph := fun c => if c = 0 then some ⟨[1], 1, 1⟩ else none }

/-- Shared: every width-table data chunk is formatted into the output. -/
theorem hexLine_mem_emitOcto_width (font : FontData)
    (h1 : font.max_width ≠ 0) (h2 : font.max_height ≠ 0)
    (h3 : ¬ font.max_width > 8) (h4 : ¬ font.max_height > 8)
    (hpres : missingGlyphs font = []) (c : List Nat)
    (hc : c ∈ tableChunks 16 (widthTableBytes font)) :
    (hexLine c ++ "\n") ∈ (emitOcto font).output := by
  rw [emitOcto_eq font h1 h2 h3 h4 hpres]
  have hmem := hexLine_mem_drainOutput 16 (by norm_num)
    (pad_for_label_name widthtable_name) "" (widthTableBytes font) c hc
  simp only [coreOutput, widthTableChunks, List.mem_append, List.mem_cons]
  tauto

/-- Shared: every glyph-table data chunk is formatted into the output. -/
theorem hexLine_mem_emitOcto_glyph (font : FontData)
    (h1 : font.max_width ≠ 0) (h2 : font.max_height ≠ 0)
    (h3 : ¬ font.max_width > 8) (h4 : ¬ font.max_height > 8)
    (hpres : missingGlyphs font = []) (c : List Nat)
    (hc : c ∈ tableChunks 16 (glyphTableBytes font)) :
    (hexLine c ++ "\n") ∈ (emitOcto font).output := by
  rw [emitOcto_eq font h1 h2 h3 h4 hpres]
  have hmem := hexLine_mem_drainOutput 16 (by norm_num)
    (pad_for_label_name glyphtable_name) "" (glyphTableBytes font) c hc
  simp only [coreOutput, glyphTableOutChunks, List.mem_append, List.mem_cons]
  tauto

/-- C3 (amended): every data line of the width table and the glyph
table carries at most 16 hexadecimal byte literals — 16, the default
`max_bytes_per_line` both flush calls use, not 8 as claimed. -/
theorem c3_data_lines_at_most_16 (font : FontData)
    (h1 : font.max_width ≠ 0) (h2 : font.max_height ≠ 0)
    (h3 : ¬ font.max_width > 8) (h4 : ¬ font.max_height > 8)
    (hpres : missingGlyphs font = []) :
    (∀ c, (c ∈ tableChunks 16 (widthTableBytes font)
        ∨ c ∈ tableChunks 16 (glyphTableBytes font)) → c.length ≤ 16)
    ∧ (∀ c, (c ∈ tableChunks 16 (widthTableBytes font)
        ∨ c ∈ tableChunks 16 (glyphTableBytes font)) →
        (hexLine c ++ "\n") ∈ (emitOcto font).output) := by
  constructor
  · rintro c (hc | hc) <;> exact tableChunks_length_le 16 _ c hc
  · rintro c (hc | hc)
    · exact hexLine_mem_emitOcto_width font h1 h2 h3 h4 hpres c hc
    · exact hexLine_mem_emitOcto_glyph font h1 h2 h3 h4 hpres c hc

theorem c3_witness :
    (∀ c, (c ∈ tableChunks 16 (widthTableBytes fontSmall)
        ∨ c ∈ tableChunks 16 (glyphTableBytes fontSmall)) → c.length ≤ 16)
    ∧ (∀ c, (c ∈ tableChunks 16 (widthTableBytes fontSmall)
        ∨ c ∈ tableChunks 16 (glyphTableBytes fontSmall)) →
        (hexLine c ++ "\n") ∈ (emitOcto fontSmall).output) :=
  c3_data_lines_at_most_16 fontSmall (by decide) (by decide) (by decide)
    (by decide) (by decide)

/-- C3 counterexample: with nine glyphs the width table's single data
line carries nine literals, refuting the claimed eight-per-line bound. -/
theorem c3_counterexample :
    List.replicate 9 1 ∈ tableChunks 16 (widthTableBytes fontNine)
      ∧ (hexLine (List.replicate 9 1) ++ "\n") ∈ (emitOcto fontNine).output
      ∧ ¬ (List.replicate 9 1).length ≤ 8 := by
  have hw : widthTableBytes fontNine = List.replicate 9 1 := by decide
  have hmem : List.replicate 9 1 ∈ tableChunks 16 (widthTableBytes fontNine) := by
    rw [hw]
    have h9 : (List.replicate 9 1 : List Nat) = [1, 1, 1, 1, 1, 1, 1, 1, 1] := by decide
    rw [h9]
    simp [tableChunks]
  refine ⟨hmem, ?_, by decide⟩
  exact hexLine_mem_emitOcto_width fontNine (by decide) (by decide) (by decide)
    (by decide) (by decide) _ hmem

end Octofont


namespace Octofont

/-- C4: with valid dimensions, if any code in
`[first_glyph, last_glyph]` is absent from the glyph mapping,
generation fails with `MissingGlyphError` carrying exactly the
ascending list of the absent codes. -/
theorem c4_missing_glyph_error (font : FontData)
    (h1 : font.max_width ≠ 0) (h2 : font.max_height ≠ 0)
    (h3 : ¬ font.max_width > 8) (h4 : ¬ font.max_height > 8)
    (hmiss : missingGlyphs font ≠ []) :
    (emitOcto font).err = some (.missingGlyphs (missingGlyphs font))
      ∧ ∀ c, c ∈ missingGlyphs font ↔
          (font.first_glyph ≤ c ∧ c ≤ font.last_glyph ∧ font.glyph c = none) := by
  constructor
  · rw [emitOcto_missing_eq font h1 h2 h3 h4 hmiss]
  · intro c
    simp only [missingGlyphs, glyphCodes, List.mem_filter,
      decide_eq_true_eq, List.mem_range'_1]
    constructor
    · rintro ⟨⟨hle, hlt⟩, hnone⟩
      exact ⟨hle, by omega, hnone⟩
    · rintro ⟨hle, hge, hnone⟩
      exact ⟨⟨hle, by omega⟩, hnone⟩

theorem c4_witness :
    (emitOcto fontMissing).err
        = some (.missingGlyphs (missingGlyphs fontMissing))
      ∧ ∀ c, c ∈ missingGlyphs fontMissing ↔
          (fontMissing.first_glyph ≤ c ∧ c ≤ fontMissing.last_glyph
            ∧ fontMissing.glyph c = none) :=
  c4_missing_glyph_error fontMissing (by decide) (by decide) (by decide)
    (by decide) (by decide)

/-- C5: a zero or over-8 dimension aborts generation with the fatal
dimension diagnostic before any byte reaches the sink; dimensions in
1..8 never produce a dimension failure. -/
theorem c5_dimension_gate (font : FontData) :
    ((font.max_width = 0 ∨ font.max_height = 0
        ∨ 8 < font.max_width ∨ 8 < font.max_height) →
      (∃ msg, (emitOcto font).err = some (.dimension msg))
        ∧ (emitOcto font).output = [])
    ∧ ((1 ≤ font.max_width ∧ font.max_width ≤ 8
        ∧ 1 ≤ font.max_height ∧ font.max_height ≤ 8) →
      ∀ msg, (emitOcto font).err ≠ some (.dimension msg)) := by
  constructor
  · intro hbad
    unfold emitOcto
    split_ifs with hc1 hc2 hc3
    · exact ⟨⟨_, rfl⟩, rfl⟩
    · exact ⟨⟨_, rfl⟩, rfl⟩
    · exact ⟨⟨_, rfl⟩, rfl⟩
    · rw [not_or] at hc1
      exfalso
      rcases hbad with hb | hb | hb | hb <;> omega
  · intro hgood msg
    unfold emitOcto
    rw [if_neg (by omega), if_neg (by omega), if_neg (by omega)]
    by_cases hpres : missingGlyphs font = []
    · rw [emitOctoCore_eq font hpres]
      simp
    · rw [emitOctoCore_missing_eq font hpres]
      simp

theorem c5_witness :
    ((∃ msg, (emitOcto fontBadDims).err = some (.dimension msg))
      ∧ (emitOcto fontBadDims).output = [])
    ∧ (∀ msg, (emitOcto fontSmall).err ≠ some (.dimension msg)) :=
  ⟨(c5_dimension_gate fontBadDims).1 (by right; right; left; decide),
   (c5_dimension_gate fontSmall).2 (by refine ⟨?_, ?_, ?_, ?_⟩ <;> decide)⟩

/-- C6: the width table holds exactly one byte per code from
`first_glyph` to `last_glyph` ascending; the byte for the `k`-th code
is that glyph's raw bitmap byte length integer-divided by the font
height (which is the glyph's pixel width for a well-formed bitmap),
and every chunk of those bytes is formatted into the emitted output. -/
theorem c6_width_table (font : FontData)
    (h1 : font.max_width ≠ 0) (h2 : font.max_height ≠ 0)
    (h3 : ¬ font.max_width > 8) (h4 : ¬ font.max_height > 8)
    (hpres : missingGlyphs font = []) :
    (widthTableBytes font).length = font.last_glyph + 1 - font.first_glyph
    ∧ (∀ k, k < font.last_glyph + 1 - font.first_glyph →
        (widthTableBytes font)[k]? =
          some ((glyphAt font (font.first_glyph + k)).pixels.length
            / font.max_height))
    ∧ (∀ k, k < font.last_glyph + 1 - font.first_glyph →
        (glyphAt font (font.first_glyph + k)).pixels.length =
          (glyphAt font (font.first_glyph + k)).width * font.max_height →
        (widthTableBytes font)[k]? =
          some (glyphAt font (font.first_glyph + k)).width)
    ∧ (∀ c ∈ tableChunks 16 (widthTableBytes font),
        (hexLine c ++ "\n") ∈ (emitOcto font).output) := by
  have hget : ∀ k, k < font.last_glyph + 1 - font.first_glyph →
      (widthTableBytes font)[k]? =
        some ((glyphAt font (font.first_glyph + k)).pixels.length
          / font.max_height) := by
    intro k hk
    unfold widthTableBytes glyphCodes
    rw [List.getElem?_map]
    rw [List.getElem?_range']
    · simp
    · exact hk
  refine ⟨?_, hget, ?_, ?_⟩
  · simp [widthTableBytes, glyphCodes]
  · intro k hk hwf
    rw [hget k hk, hwf, Nat.mul_div_cancel _ (by omega)]
  · intro c hc
    exact hexLine_mem_emitOcto_width font h1 h2 h3 h4 hpres c hc

theorem c6_witness :
    (widthTableBytes fontSmall).length
        = fontSmall.last_glyph + 1 - fontSmall.first_glyph
    ∧ (∀ k, k < fontSmall.last_glyph + 1 - fontSmall.first_glyph →
        (widthTableBytes fontSmall)[k]? =
          some ((glyphAt fontSmall (fontSmall.first_glyph + k)).pixels.length
            / fontSmall.max_height))
    ∧ (∀ k, k < fontSmall.last_glyph + 1 - fontSmall.first_glyph →
        (glyphAt fontSmall (fontSmall.first_glyph + k)).pixels.length =
          (glyphAt fontSmall (fontSmall.first_glyph + k)).width
            * fontSmall.max_height →
        (widthTableBytes fontSmall)[k]? =
          some (glyphAt fontSmall (fontSmall.first_glyph + k)).width)
    ∧ (∀ c ∈ tableChunks 16 (widthTableBytes fontSmall),
        (hexLine c ++ "\n") ∈ (emitOcto fontSmall).output) :=
  c6_width_table fontSmall (by decide) (by decide) (by decide) (by decide)
    (by decide)

/-- C7 (amended): the first instruction of the draw-glyph routine adds
the literal `256 - first_glyph` to the character register — equal to
`(256 - first_glyph) mod 256` for `first_glyph ≥ 1`, but 256 (not 0)
when `first_glyph = 0`. -/
theorem c7_draw_offset_literal (font : FontData)
    (h1 : font.max_width ≠ 0) (h2 : font.max_height ≠ 0)
    (h3 : ¬ font.max_width > 8) (h4 : ¬ font.max_height > 8)
    (hpres : missingGlyphs font = []) :
    (∃ rest, (emitOcto font).output =
      headerChunks font ++ ["", "\n"]
        ++ commentChunks ("Call with " ++ draw_char_reg
          ++ " = ASCII character, " ++ draw_x_reg ++ " = x, "
          ++ draw_y_reg ++ " = y")
        ++ commentChunks ("Returns with " ++ draw_x_reg
          ++ " incremented by the width of the glyph plus "
          ++ toString kern_px)
        ++ commentChunks ("Clobbers vF, I"
          ++ (if draw_char_reg = width_char_reg then ""
              else ", " ++ width_char_reg))
        ++ commentChunks ("Must not be called with " ++ draw_char_reg
          ++ " < " ++ toString font.first_glyph ++ " or " ++ draw_char_reg
          ++ " > " ++ toString font.last_glyph ++ "!")
        ++ ["", (": " ++ draw_func_name) ++ "\n",
            "  ", (draw_char_reg ++ " += "
              ++ toString (256 - (font.first_glyph : Int))) ++ "\n"]
        ++ rest)
    ∧ (1 ≤ font.first_glyph → font.first_glyph ≤ 255 →
        (256 - (font.first_glyph : Int)) % 256
          = 256 - (font.first_glyph : Int)) := by
  constructor
  · refine ⟨["  ", ("i := " ++ glyphtable_name) ++ "\n"]
      ++ shiftChunks font.max_height
      ++ ["  ", ("sprite " ++ draw_x_reg ++ " " ++ draw_y_reg ++ " "
            ++ toString font.max_height) ++ "\n",
          "  ", (width_func_name ++ "_no_offset") ++ "\n",
          "  ", (draw_x_reg ++ " += " ++ width_char_reg) ++ "\n",
          "  ", (draw_x_reg ++ " += 1") ++ "\n",
          "  ", "return" ++ "\n"]
      ++ widthChunks font ++ strLabelChunks ++ widthTableChunks font
      ++ glyphTableOutChunks font, ?_⟩
    rw [emitOcto_eq font h1 h2 h3 h4 hpres]
    simp [coreOutput, drawChunks, List.append_assoc]
  · intro hge hle
    have hf : (font.first_glyph : Int) ≤ 255 := by exact_mod_cast hle
    have hg : (1 : Int) ≤ (font.first_glyph : Int) := by exact_mod_cast hge
    omega

theorem c7_witness :
    (∃ rest, (emitOcto fontSmall).output =
      headerChunks fontSmall ++ ["", "\n"]
        ++ commentChunks ("Call with " ++ draw_char_reg
          ++ " = ASCII character, " ++ draw_x_reg ++ " = x, "
          ++ draw_y_reg ++ " = y")
        ++ commentChunks ("Returns with " ++ draw_x_reg
          ++ " incremented by the width of the glyph plus "
          ++ toString kern_px)
        ++ commentChunks ("Clobbers vF, I"
          ++ (if draw_char_reg = width_char_reg then ""
              else ", " ++ width_char_reg))
        ++ commentChunks ("Must not be called with " ++ draw_char_reg
          ++ " < " ++ toString fontSmall.first_glyph ++ " or "
          ++ draw_char_reg ++ " > " ++ toString fontSmall.last_glyph ++ "!")
        ++ ["", (": " ++ draw_func_name) ++ "\n",
            "  ", (draw_char_reg ++ " += "
              ++ toString (256 - (fontSmall.first_glyph : Int))) ++ "\n"]
        ++ rest)
    ∧ (1 ≤ fontSmall.first_glyph → fontSmall.first_glyph ≤ 255 →
        (256 - (fontSmall.first_glyph : Int)) % 256
          = 256 - (fontSmall.first_glyph : Int)) :=
  c7_draw_offset_literal fontSmall (by decide) (by decide) (by decide)
    (by decide) (by decide)

/-- C7 counterexample: with `first_glyph = 0` the emitted line is
`v0 += 256`, while `(256 - 0) mod 256 = 0`; the claimed literal would
be 0, which is not what the generator writes. -/
theorem c7_counterexample :
    (("v0 += " ++ toString (256 - (fontZero.first_glyph : Int))) ++ "\n")
        ∈ (emitOcto fontZero).output
      ∧ ("v0 += " ++ toString (256 - (fontZero.first_glyph : Int))) ++ "\n"
          = "v0 += 256\n"
      ∧ ("v0 += " ++ toString ((256 - (fontZero.first_glyph : Int)) % 256)) ++ "\n"
          = "v0 += 0\n"
      ∧ ("v0 += 256\n" : String) ≠ "v0 += 0\n" := by
  refine ⟨?_, by decide, by decide, by decide⟩
  rw [emitOcto_eq fontZero (by decide) (by decide) (by decide) (by decide)
    (by decide)]
  simp only [coreOutput, drawChunks, draw_char_reg, List.mem_append,
    List.mem_cons, List.append_assoc]
  tauto

end Octofont
